import Mathlib

/-
Shallow embedding of the RAG-Podcasts query-time pipeline.

Text is modelled as `List Char` (Python `str`; the ASCII fragment the
repository's data uses).  Python `int` values that are never negative are
modelled as `Nat`; token budgets that flow through environment overrides as
`Int`.  The float literal 1.3 occurs only inside `int(n * 1.3)` and
`int(n / 1.3)` applied to a Nat n: in exact arithmetic these are
`13 * n / 10` and `10 * n / 13` (floor), and the double-rounding error of the
binary literal 1.3 (relative error below 2^-52) is far smaller than the
distance from 13n/10 or 10n/13 to the nearest other integer whenever the
exact value is not an integer (at least 1/13), and rounds back to the exact
integer when it is one; so both are embedded as Nat floor divisions.
-/

namespace RagPodcasts

/-- The whitespace characters of Python `str.split` / `str.strip` and of the
regex class `\s`, restricted to ASCII: space, tab, newline, carriage return,
vertical tab (11) and form feed (12). -/
def isPySpace (c : Char) : Bool :=
  c = ' ' || c = '\t' || c = '\n' || c = '\r' || c.toNat = 11 || c.toNat = 12

/-- Python `str.strip()`: remove leading and trailing whitespace. -/
def pyStrip (s : List Char) : List Char :=
  ((s.dropWhile isPySpace).reverse.dropWhile isPySpace).reverse

/-- Helper for `splitWords`: scan with the current (reversed) word. -/
def splitWordsAux (cur : List Char) : List Char → List (List Char)
  | [] => if cur = [] then [] else [cur.reverse]
  | c :: rest =>
    if isPySpace c then
      if cur = [] then splitWordsAux [] rest else cur.reverse :: splitWordsAux [] rest
    else splitWordsAux (c :: cur) rest

/-- Python `str.split()` with no argument: the maximal runs of
non-whitespace characters. -/
def splitWords (s : List Char) : List (List Char) :=
  splitWordsAux [] s

/-- Python `" ".join(pieces)`. -/
def joinPieces : List (List Char) → List Char
  | [] => []
  | [p] => p
  | p :: q :: rest => p ++ ' ' :: joinPieces (q :: rest)

/-- Helper for `pySplitlines`: scan with the current (reversed) line.
Line boundaries modelled: `\r\n`, `\r`, `\n`. -/
def pySplitlinesAux (cur : List Char) : List Char → List (List Char)
  | [] => if cur = [] then [] else [cur.reverse]
  | '\r' :: '\n' :: rest => cur.reverse :: pySplitlinesAux [] rest
  | '\r' :: rest => cur.reverse :: pySplitlinesAux [] rest
  | '\n' :: rest => cur.reverse :: pySplitlinesAux [] rest
  | c :: rest => pySplitlinesAux (c :: cur) rest

/-- Python `str.splitlines()` over the line boundaries the transcripts use. -/
def pySplitlines (s : List Char) : List (List Char) :=
  pySplitlinesAux [] s

/-- Case-insensitive literal match of a pattern against a prefix of the
input; returns the rest of the input after the pattern.  Models a regex
literal under `re.IGNORECASE` (ASCII case folding). -/
def matchCI : List Char → List Char → Option (List Char)
  | [], l => some l
  | _ :: _, [] => none
  | p :: ps, c :: cs => if p.toLower = c.toLower then matchCI ps cs else none

/-- Regex `\d+` at the head of the input: at least one ASCII digit, maximal
run; returns the rest. -/
def matchDigits1 : List Char → Option (List Char)
  | [] => none
  | c :: rest => if c.isDigit then some (rest.dropWhile Char.isDigit) else none

def hostPat : List Char := "host".data
def guestPat : List Char := "guest".data
def speakerPat : List Char := "speaker ".data
def interviewerPat : List Char := "interviewer".data

/-- `re.match` of `^(Host|Guest|Speaker \d+|Interviewer):` with
`re.IGNORECASE` against the start of a line.  The alternatives start with
distinct letters, and each is followed by the literal `:` (for `Speaker` a
maximal digit run then `:`; giving back digits cannot help since `:` is not a
digit), so the scan is deterministic. -/
def speakerMatch (line : List Char) : Bool :=
  (match matchCI hostPat line with | some (':' :: _) => true | _ => false)
  || (match matchCI guestPat line with | some (':' :: _) => true | _ => false)
  || (match matchCI speakerPat line with
      | some rest =>
        (match matchDigits1 rest with | some (':' :: _) => true | _ => false)
      | none => false)
  || (match matchCI interviewerPat line with | some (':' :: _) => true | _ => false)

/-- Helper for `groupBlocks`: the running `current` list of lines, flushed
(joined with single spaces) when a speaker-labelled line starts a new block.
Mirrors the accumulation loop of `chunk_by_semantic_windows`. -/
def groupBlocksAux (current : List (List Char)) : List (List Char) → List (List Char)
  | [] => if current = [] then [] else [joinPieces current]
  | line :: rest =>
    if speakerMatch line ∧ current ≠ [] then
      joinPieces current :: groupBlocksAux [line] rest
    else
      groupBlocksAux (current ++ [line]) rest

/-- The characters of a whitespace run that follow its last newline. -/
def afterLastNewline (w : List Char) : List Char :=
  (w.reverse.takeWhile (fun c => c ≠ '\n')).reverse

/-- Helper for `paraSplit`, fuelled (the fuel is the input length, which
bounds the number of scan steps).  Models `re.split(r"\n\s*\n", text)`: a
match starts at a newline whose following whitespace run contains another
newline, and greedily extends through the last newline of that run (the
greedy `\s*` backtracks only until a `\n` follows, which places the match end
at the run's last newline). -/
def paraSplitAux : Nat → List Char → List Char → List (List Char)
  | _, cur, [] => [cur.reverse]
  | 0, cur, l => [cur.reverse ++ l]
  | fuel + 1, cur, '\n' :: t =>
    let w := t.takeWhile isPySpace
    let rest := t.dropWhile isPySpace
    if '\n' ∈ w then
      cur.reverse :: paraSplitAux fuel [] (afterLastNewline w ++ rest)
    else
      paraSplitAux fuel ('\n' :: cur) t
  | fuel + 1, cur, c :: t => paraSplitAux fuel (c :: cur) t

/-- `re.split(r"\n\s*\n", text)`: split on blank-line boundaries. -/
def paraSplit (text : List Char) : List (List Char) :=
  paraSplitAux text.length [] text

/-- The block computation of `chunk_by_semantic_windows` (src/ingest/chunk.py
lines 27-47): split into speaker blocks; if fewer than 3 blocks, fall back to
paragraph splitting of the original text. -/
def computeBlocks (text : List Char) : List (List Char) :=
  let lines := ((pySplitlines text).map pyStrip).filter (fun l => l ≠ [])
  let blocks := groupBlocksAux [] lines
  if blocks.length < 3 then
    ((paraSplit text).map pyStrip).filter (fun l => l ≠ [])
  else blocks

/-- `estimate_tokens` of src/ingest/chunk.py line 50: `int(len(txt.split()) * 1.3)`
(see the module comment for the float-to-Nat-division correspondence). -/
def estimate_tokens (txt : List Char) : Nat :=
  13 * (splitWords txt).length / 10

/-- Python `lst[-k:]` for a Nat slice bound k: for k = 0 this is `lst[0:]`,
the WHOLE list (`-0 == 0` in Python); for k > 0 the last `min k (length l)`
elements. -/
def pySliceLast {α : Type} (k : Nat) (l : List α) : List α :=
  if k = 0 then l else l.drop (l.length - k)

/-- The accumulation loop of `chunk_by_semantic_windows` (src/ingest/chunk.py
lines 53-74): emit the buffer when adding the next block would push the
running token count over `max_tokens`, then seed the next buffer with
`chunk_text.split()[-overlap_words:]` where `overlap_words = int(overlap/1.3)`. -/
def chunkLoop (max_tokens overlap : Nat) :
    List (List Char) → List (List Char) → Nat → List (List Char)
  | [], buffer, _ => if buffer = [] then [] else [joinPieces buffer]
  | block :: rest, buffer, token_count =>
    let tokens := estimate_tokens block
    if token_count + tokens > max_tokens then
      let chunk_text := joinPieces buffer
      let overlap_words := 10 * overlap / 13
      let newbuf := pySliceLast overlap_words (splitWords chunk_text)
      chunk_text ::
        chunkLoop max_tokens overlap rest (newbuf ++ [block])
          (estimate_tokens (joinPieces newbuf) + tokens)
    else
      chunkLoop max_tokens overlap rest (buffer ++ [block]) (token_count + tokens)

/-- One emitted chunk: text, timestamp (always absent in the current code)
and zero-based position. -/
structure Chunk where
  text : List Char
  timestamp : Option (List Char)
  paragraph_index : Nat
deriving DecidableEq

/-- Python `enumerate` over the emitted chunk texts, starting at index i. -/
def attachPositions : List (List Char) → Nat → List Chunk
  | [], _ => []
  | c :: rest, i => ⟨c, none, i⟩ :: attachPositions rest (i + 1)

/-- `chunk_by_semantic_windows` of src/ingest/chunk.py lines 12-83. -/
def chunk_by_semantic_windows (text : List Char) (max_tokens overlap : Nat) :
    List Chunk :=
  attachPositions (chunkLoop max_tokens overlap (computeBlocks text) [] 0) 0

theorem attachPositions_map_idx (cs : List (List Char)) (i : Nat) :
    (attachPositions cs i).map Chunk.paragraph_index = List.range' i cs.length := by
  induction cs generalizing i with
  | nil => simp [attachPositions]
  | cons c rest ih => simp [attachPositions, List.range'_succ, ih]

theorem attachPositions_length (cs : List (List Char)) (i : Nat) :
    (attachPositions cs i).length = cs.length := by
  induction cs generalizing i with
  | nil => rfl
  | cons c rest ih => simp [attachPositions, ih]

/-- C3 (amended): the emitted chunk positions are exactly 0, 1, 2, …, the
index of each chunk in the output, strictly increasing from zero.  (The
token-count half of the claim is refuted by `chunk_token_bound_fails`.) -/
theorem chunk_positions_exact (text : List Char) (max_tokens overlap : Nat) :
    (chunk_by_semantic_windows text max_tokens overlap).map Chunk.paragraph_index
      = List.range (chunk_by_semantic_windows text max_tokens overlap).length := by
  unfold chunk_by_semantic_windows
  rw [attachPositions_map_idx, attachPositions_length, List.range_eq_range']

def cEx3Text : List Char := "a\n\nb\n\nc\n\nd\n\ne".data
def cEx3Chunk1 : List Char := "a b c d".data
def cEx3Chunk2 : List Char := "a b c d e".data

/-- C3 fails as stated: with `max_tokens = 4`, `overlap = 0`, the transcript
whose paragraph blocks are the five one-word blocks a, b, c, d, e produces a
first chunk "a b c d" whose estimated token count is 5 > 4, although every
block's estimate is 1 ≤ 4 and the chunk is not a single oversized block (it
equals no block).  The loop compares `max_tokens` with the running sum of
per-block estimates, which is smaller than the joined text's estimate. -/
theorem chunk_token_bound_fails :
    (chunk_by_semantic_windows cEx3Text 4 0).map Chunk.text = [cEx3Chunk1, cEx3Chunk2]
    ∧ estimate_tokens cEx3Chunk1 = 5
    ∧ (computeBlocks cEx3Text).all (fun b => estimate_tokens b ≤ 4) = true
    ∧ (computeBlocks cEx3Text).all (fun b => !(b == cEx3Chunk1)) = true := by
  decide

/-- C9: evaluation at the failing input.  With `overlap = 0` we get
`int(overlap / 1.3) = 0`, and the seeding `chunk_text.split()[-0:]` is the
WHOLE word list of the just-emitted chunk, not zero words: the second chunk
"a b c d e" repeats every word of the first chunk "a b c d". -/
theorem chunk_overlap_zero_carries_all :
    10 * 0 / 13 = 0
    ∧ pySliceLast (10 * 0 / 13) (splitWords cEx3Chunk1) = splitWords cEx3Chunk1
    ∧ splitWords cEx3Chunk1 ≠ []
    ∧ (chunk_by_semantic_windows cEx3Text 4 0).map Chunk.text
        = [cEx3Chunk1, cEx3Chunk2] := by
  decide

/-- C10: whenever the first block of the block computation alone has an
estimated token count exceeding `max_tokens`, the first emitted chunk is the
empty string: the empty buffer is emitted before the oversized block is
added. -/
theorem chunk_first_block_oversized_head (text : List Char)
    (max_tokens overlap : Nat) (b : List Char) (rest : List (List Char))
    (hb : computeBlocks text = b :: rest)
    (hover : max_tokens < estimate_tokens b) :
    (chunk_by_semantic_windows text max_tokens overlap).head?
      = some (⟨[], none, 0⟩ : Chunk) := by
  simp [chunk_by_semantic_windows, hb, chunkLoop, joinPieces, attachPositions, hover]

def cEx10Text : List Char := "w1 w2 w3 w4\n\nb\n\nc".data
def cEx10Block : List Char := "w1 w2 w3 w4".data
def cEx10Rest : List (List Char) := ["b".data, "c".data]

/-- Witness for `chunk_first_block_oversized_head` at a concrete transcript
whose first paragraph has estimate 5 > 3. -/
theorem chunk_first_block_oversized_head_witness :
    (chunk_by_semantic_windows cEx10Text 3 40).head?
      = some (⟨[], none, 0⟩ : Chunk) :=
  chunk_first_block_oversized_head cEx10Text 3 40 cEx10Block cEx10Rest
    (by decide) (by decide)

/-! Title parsing (src/ingest/chunk.py lines 86-112).  Each of the four
regex heuristics is embedded as a deterministic scanner.  Greedy regex
matching coincides with maximal munch at every use: inside a name, giving
back letters of `[a-z]+` leaves a letter where `\s+` or `\s*` must match, and
giving back whitespace of `\s+`/`\s*` leaves whitespace where a letter or a
literal must match; the repetition count of `(?:\s+[A-Z][a-z]+)+` can
backtrack, but for patterns 1 and 2 nothing follows the group, and for
patterns 3 and 4 a shorter repetition leaves the next name word (starting
with an uppercase letter) where `on` (lowercase) respectively the string end
is required, so only the maximal repetition can succeed. -/

def isAsciiLetter (c : Char) : Bool := c.isAlpha

/-- Regex word character `\w` over ASCII: letter, digit or underscore. -/
def isWordChar (c : Char) : Bool := c.isAlphanum || c = '_'

/-- Regex `[A-Z][a-z]+` under IGNORECASE: any letter followed by at least
one more letter, maximal run.  Returns (word, rest). -/
def parseWordCI : List Char → Option (List Char × List Char)
  | [] => none
  | c :: rest =>
    if isAsciiLetter c then
      let more := rest.takeWhile isAsciiLetter
      if more = [] then none
      else some (c :: more, rest.dropWhile isAsciiLetter)
    else none

/-- Regex `[A-Z][a-z]+` (case sensitive): an uppercase letter followed by at
least one lowercase letter, maximal run. -/
def parseWordCS : List Char → Option (List Char × List Char)
  | [] => none
  | c :: rest =>
    if c.isUpper then
      let more := rest.takeWhile Char.isLower
      if more = [] then none
      else some (c :: more, rest.dropWhile Char.isLower)
    else none

/-- Regex `\s+`: at least one whitespace character, maximal run. -/
def parseWs1 : List Char → Option (List Char × List Char)
  | [] => none
  | c :: rest =>
    if isPySpace c then
      some (c :: rest.takeWhile isPySpace, rest.dropWhile isPySpace)
    else none

/-- Regex `(?:\s+word)+` body: as many `\s+ word` groups as parse, their
text concatenated; fuelled (the callers pass the input length, an upper
bound on the group count since each group consumes at least two
characters). -/
def parseReps (word : List Char → Option (List Char × List Char)) :
    Nat → List Char → List Char × List Char
  | 0, l => ([], l)
  | fuel + 1, l =>
    match parseWs1 l with
    | none => ([], l)
    | some (ws, r1) =>
      match word r1 with
      | none => ([], l)
      | some (w, r2) =>
        let (more, rest) := parseReps word fuel r2
        (ws ++ w ++ more, rest)

/-- Regex `word(?:\s+word)+`: a word followed by at least one
whitespace-separated further word; returns the captured text (the exact
consumed substring, original whitespace included) and the rest. -/
def parseName (word : List Char → Option (List Char × List Char))
    (l : List Char) : Option (List Char × List Char) :=
  match word l with
  | none => none
  | some (w, r) =>
    let pr := parseReps word r.length r
    if pr.1 = [] then none else some (w ++ pr.1, pr.2)

def withPat : List Char := "with".data
def ftPat : List Char := "ft".data
def featuringPat : List Char := "featuring".data
def onPat : List Char := "on".data

/-- Case-sensitive literal match of a pattern against a prefix of the input. -/
def matchCS : List Char → List Char → Option (List Char)
  | [], l => some l
  | _ :: _, [] => none
  | p :: ps, c :: cs => if p = c then matchCS ps cs else none

/-- Word-boundary test for a pattern that begins with a word character:
`\b` holds iff the previous character (none at the string start) is not a
word character. -/
def boundaryBefore : Option Char → Bool
  | none => true
  | some c => !isWordChar c

/-- Attempt of `\bwith\s+([A-Z][a-z]+(?:\s+[A-Z][a-z]+)+)` (IGNORECASE) at
one position; `prev` is the character before the position. -/
def tryWithAt (prev : Option Char) (l : List Char) : Option (List Char) :=
  if boundaryBefore prev then
    match matchCI withPat l with
    | none => none
    | some r1 =>
      match parseWs1 r1 with
      | none => none
      | some (ws, r2) =>
        match parseName parseWordCI r2 with
        | none => none
        | some (cap, r3) => some cap
  else none

/-- `re.search` scan for pattern 1: leftmost position whose attempt wins. -/
def searchWith (prev : Option Char) : List Char → Option (List Char)
  | [] => none
  | c :: rest =>
    match tryWithAt prev (c :: rest) with
    | some cap => some cap
    | none => searchWith (some c) rest

/-- Head of pattern 2, `(?:ft\.?|featuring)` (IGNORECASE), at one position.
The alternatives diverge at their second character (t vs e), so at most one
matches; after `ft` the optional dot is consumed exactly when present (if it
were skipped the following `\s+` would have to match `.`, which fails). -/
def tryFtHead (l : List Char) : Option (List Char) :=
  match matchCI ftPat l with
  | some [] => some []
  | some (c :: r) => if c = '.' then some r else some (c :: r)
  | none => matchCI featuringPat l

/-- Attempt of `\b(?:ft\.?|featuring)\s+(name)` (IGNORECASE) at one
position. -/
def tryFtAt (prev : Option Char) (l : List Char) : Option (List Char) :=
  if boundaryBefore prev then
    match tryFtHead l with
    | none => none
    | some r1 =>
      match parseWs1 r1 with
      | none => none
      | some (ws, r2) =>
        match parseName parseWordCI r2 with
        | none => none
        | some (cap, r3) => some cap
  else none

/-- `re.search` scan for pattern 2. -/
def searchFt (prev : Option Char) : List Char → Option (List Char)
  | [] => none
  | c :: rest =>
    match tryFtAt prev (c :: rest) with
    | some cap => some cap
    | none => searchFt (some c) rest

/-- Pattern 3, `^([A-Z][a-z]+(?:\s+[A-Z][a-z]+)+)\s+on\s+` (case
sensitive), anchored at the title start. -/
def tryNameOn (l : List Char) : Option (List Char) :=
  match parseName parseWordCS l with
  | none => none
  | some (cap, r1) =>
    match parseWs1 r1 with
    | none => none
    | some (ws, r2) =>
      match matchCS onPat r2 with
      | none => none
      | some r3 =>
        match parseWs1 r3 with
        | none => none
        | some q => some cap

/-- Attempt of pattern 4 after a `|` or `-`: `\s*`, a case-sensitive name,
`\s*$` (the title's trailing rest must be all whitespace). -/
def tryBarName (l : List Char) : Option (List Char) :=
  match parseName parseWordCS (l.dropWhile isPySpace) with
  | none => none
  | some (cap, r1) => if r1.dropWhile isPySpace = [] then some cap else none

/-- `re.search` scan for pattern 4, `[|\-]\s*(name)\s*$`: leftmost `|` or
`-` whose attempt wins. -/
def searchBar : List Char → Option (List Char)
  | [] => none
  | c :: rest =>
    if c = '|' ∨ c = '-' then
      match tryBarName rest with
      | some cap => some cap
      | none => searchBar rest
    else searchBar rest

/-- `extract_guest_from_title` of src/ingest/chunk.py lines 86-112: the four
heuristics tried in order, first match wins; the original title is always
the first component. -/
def extract_guest_from_title (title : List Char) :
    List Char × Option (List Char) :=
  match searchWith none title with
  | some g => (title, some g)
  | none =>
    match searchFt none title with
    | some g => (title, some g)
    | none =>
      match tryNameOn title with
      | some g => (title, some g)
      | none =>
        match searchBar title with
        | some g => (title, some g)
        | none => (title, none)

theorem matchCI_decomp :
    ∀ p l r, matchCI p l = some r → ∃ pre, l = pre ++ r := by
  intro p
  induction p with
  | nil =>
    intro l r h
    simp [matchCI] at h
    exact ⟨[], by simp [h]⟩
  | cons c cs ih =>
    intro l r h
    cases l with
    | nil => simp [matchCI] at h
    | cons d ds =>
      simp only [matchCI] at h
      split at h
      · obtain ⟨pre, hp⟩ := ih ds r h
        exact ⟨d :: pre, by simp [hp]⟩
      · exact absurd h (by simp)

theorem matchCS_decomp :
    ∀ p l r, matchCS p l = some r → ∃ pre, l = pre ++ r := by
  intro p
  induction p with
  | nil =>
    intro l r h
    simp [matchCS] at h
    exact ⟨[], by simp [h]⟩
  | cons c cs ih =>
    intro l r h
    cases l with
    | nil => simp [matchCS] at h
    | cons d ds =>
      simp only [matchCS] at h
      split at h
      · obtain ⟨pre, hp⟩ := ih ds r h
        exact ⟨d :: pre, by simp [hp]⟩
      · exact absurd h (by simp)

theorem parseWs1_decomp (l ws r : List Char) (h : parseWs1 l = some (ws, r)) :
    l = ws ++ r ∧ ws.any isPySpace = true := by
  cases l with
  | nil => simp [parseWs1] at h
  | cons c rest =>
    simp only [parseWs1] at h
    split at h
    · obtain ⟨h1, h2⟩ := Prod.mk.injEq .. ▸ (Option.some.injEq .. ▸ h)
      subst h1; subst h2
      constructor
      · simp [List.takeWhile_append_dropWhile]
      · simp_all
    · exact absurd h (by simp)

theorem parseWordCI_decomp (l w r : List Char)
    (h : parseWordCI l = some (w, r)) : l = w ++ r ∧ w ≠ [] := by
  cases l with
  | nil => simp [parseWordCI] at h
  | cons c rest =>
    simp only [parseWordCI] at h
    split at h
    · split at h
      · exact absurd h (by simp)
      · obtain ⟨h1, h2⟩ := Prod.mk.injEq .. ▸ (Option.some.injEq .. ▸ h)
        subst h1; subst h2
        constructor
        · simp [List.takeWhile_append_dropWhile]
        · simp
    · exact absurd h (by simp)

theorem parseWordCS_decomp (l w r : List Char)
    (h : parseWordCS l = some (w, r)) : l = w ++ r ∧ w ≠ [] := by
  cases l with
  | nil => simp [parseWordCS] at h
  | cons c rest =>
    simp only [parseWordCS] at h
    split at h
    · split at h
      · exact absurd h (by simp)
      · obtain ⟨h1, h2⟩ := Prod.mk.injEq .. ▸ (Option.some.injEq .. ▸ h)
        subst h1; subst h2
        constructor
        · simp [List.takeWhile_append_dropWhile]
        · simp
    · exact absurd h (by simp)

theorem parseReps_decomp (word : List Char → Option (List Char × List Char))
    (hword : ∀ l w r, word l = some (w, r) → l = w ++ r ∧ w ≠ []) :
    ∀ fuel l reps rest, parseReps word fuel l = (reps, rest) →
      l = reps ++ rest := by
  intro fuel
  induction fuel with
  | zero =>
    intro l reps rest h
    rw [parseReps] at h
    injection h with h1 h2
    subst h1; subst h2
    simp
  | succ n ih =>
    intro l reps rest h
    rw [parseReps] at h
    split at h
    · injection h with h1 h2
      subst h1; subst h2
      simp
    · rename_i ws r1 hws
      split at h
      · injection h with h1 h2
        subst h1; subst h2
        simp
      · rename_i w r2 hw
        injection h with h1 h2
        have e1 := (parseWs1_decomp l ws r1 hws).1
        have e2 := (hword r1 w r2 hw).1
        have e3 : r2 = (parseReps word n r2).1 ++ (parseReps word n r2).2 :=
          ih r2 (parseReps word n r2).1 (parseReps word n r2).2 rfl
        subst h1; subst h2
        conv_lhs => rw [e1, e2, e3]
        simp

theorem parseReps_space (word : List Char → Option (List Char × List Char)) :
    ∀ fuel l reps rest, parseReps word fuel l = (reps, rest) →
      reps = [] ∨ reps.any isPySpace = true := by
  intro fuel l reps rest h
  cases fuel with
  | zero =>
    rw [parseReps] at h
    injection h with h1 h2
    exact Or.inl h1.symm
  | succ n =>
    rw [parseReps] at h
    split at h
    · injection h with h1 h2
      exact Or.inl h1.symm
    · rename_i ws r1 hws
      split at h
      · injection h with h1 h2
        exact Or.inl h1.symm
      · rename_i w r2 hw
        injection h with h1 h2
        refine Or.inr ?_
        rw [← h1]
        have := (parseWs1_decomp l ws r1 hws).2
        simp [List.any_append, this]

theorem parseName_shape (word : List Char → Option (List Char × List Char))
    (hword : ∀ l w r, word l = some (w, r) → l = w ++ r ∧ w ≠ []) :
    ∀ l cap rest, parseName word l = some (cap, rest) →
      l = cap ++ rest ∧ cap ≠ [] ∧ cap.any isPySpace = true := by
  intro l cap rest h
  rw [parseName] at h
  split at h
  · exact absurd h (by simp)
  · rename_i w r hw
    simp only at h
    split at h
    · exact absurd h (by simp)
    · rename_i hrne
      injection h with h'
      injection h' with h1 h2
      have e1 := (hword l w r hw).1
      have e2 : r = (parseReps word r.length r).1 ++ (parseReps word r.length r).2 :=
        parseReps_decomp word hword r.length r
          (parseReps word r.length r).1 (parseReps word r.length r).2 rfl
      have e3 := parseReps_space word r.length r
        (parseReps word r.length r).1 (parseReps word r.length r).2 rfl
      have hsp : (parseReps word r.length r).1.any isPySpace = true := by
        rcases e3 with e3 | e3
        · exact absurd e3 hrne
        · exact e3
      have hwne := (hword l w r hw).2
      subst h1; subst h2
      refine ⟨?_, ?_, ?_⟩
      · conv_lhs => rw [e1, e2]
        simp
      · simp [hwne]
      · simp [List.any_append, hsp]

/-- The shape every extracted guest has: nonempty, contains whitespace
(hence at least two words) and occurs verbatim inside the searched text. -/
def GuestShape (g l : List Char) : Prop :=
  g ≠ [] ∧ g.any isPySpace = true ∧ g <:+: l

theorem tryWithAt_shape (prev : Option Char) (l g : List Char)
    (h : tryWithAt prev l = some g) : GuestShape g l := by
  rw [tryWithAt] at h
  split at h
  · split at h
    · exact absurd h (by simp)
    · rename_i r1 hm
      split at h
      · exact absurd h (by simp)
      · rename_i ws r2 hws
        split at h
        · exact absurd h (by simp)
        · rename_i cap rest hn
          injection h with h1
          obtain ⟨e2, hne, hsp⟩ :=
            parseName_shape parseWordCI parseWordCI_decomp r2 cap rest hn
          obtain ⟨pre, e0⟩ := matchCI_decomp withPat l r1 hm
          have e1 := (parseWs1_decomp r1 ws r2 hws).1
          have hshape : GuestShape cap l := by
            refine ⟨hne, hsp, pre ++ ws, rest, ?_⟩
            rw [e0, e1, e2]
            simp
          exact h1 ▸ hshape
  · exact absurd h (by simp)

theorem searchWith_shape :
    ∀ l prev g, searchWith prev l = some g → GuestShape g l := by
  intro l
  induction l with
  | nil => intro prev g h; simp [searchWith] at h
  | cons c rest ih =>
    intro prev g h
    rw [searchWith] at h
    split at h
    · rename_i cap ht
      injection h with h1
      exact h1 ▸ tryWithAt_shape prev (c :: rest) cap ht
    · rename_i ht
      obtain ⟨hne, hsp, hinf⟩ := ih (some c) g h
      exact ⟨hne, hsp, List.infix_cons hinf⟩

theorem tryFtHead_decomp (l r : List Char) (h : tryFtHead l = some r) :
    ∃ pre, l = pre ++ r := by
  rw [tryFtHead] at h
  split at h
  · rename_i hm
    injection h with h1
    subst h1
    exact matchCI_decomp ftPat l [] hm
  · rename_i c r2 hm
    split at h
    · rename_i hc
      subst hc
      injection h with h1
      obtain ⟨pre, e0⟩ := matchCI_decomp ftPat l ('.' :: r2) hm
      refine ⟨pre ++ ['.'], ?_⟩
      rw [e0, ← h1]
      simp
    · injection h with h1
      rw [← h1]
      exact matchCI_decomp ftPat l (c :: r2) hm
  · exact matchCI_decomp featuringPat l r h

theorem tryFtAt_shape (prev : Option Char) (l g : List Char)
    (h : tryFtAt prev l = some g) : GuestShape g l := by
  rw [tryFtAt] at h
  split at h
  · split at h
    · exact absurd h (by simp)
    · rename_i r1 hm
      split at h
      · exact absurd h (by simp)
      · rename_i ws r2 hws
        split at h
        · exact absurd h (by simp)
        · rename_i cap rest hn
          injection h with h1
          obtain ⟨e2, hne, hsp⟩ :=
            parseName_shape parseWordCI parseWordCI_decomp r2 cap rest hn
          obtain ⟨pre, e0⟩ := tryFtHead_decomp l r1 hm
          have e1 := (parseWs1_decomp r1 ws r2 hws).1
          have hshape : GuestShape cap l := by
            refine ⟨hne, hsp, pre ++ ws, rest, ?_⟩
            rw [e0, e1, e2]
            simp
          exact h1 ▸ hshape
  · exact absurd h (by simp)

theorem searchFt_shape :
    ∀ l prev g, searchFt prev l = some g → GuestShape g l := by
  intro l
  induction l with
  | nil => intro prev g h; simp [searchFt] at h
  | cons c rest ih =>
    intro prev g h
    rw [searchFt] at h
    split at h
    · rename_i cap ht
      injection h with h1
      exact h1 ▸ tryFtAt_shape prev (c :: rest) cap ht
    · rename_i ht
      obtain ⟨hne, hsp, hinf⟩ := ih (some c) g h
      exact ⟨hne, hsp, List.infix_cons hinf⟩

theorem tryNameOn_shape (l g : List Char) (h : tryNameOn l = some g) :
    GuestShape g l := by
  rw [tryNameOn] at h
  split at h
  · exact absurd h (by simp)
  · rename_i cap r1 hn
    obtain ⟨e1, hne, hsp⟩ :=
      parseName_shape parseWordCS parseWordCS_decomp l cap r1 hn
    split at h
    · exact absurd h (by simp)
    · split at h
      · exact absurd h (by simp)
      · split at h
        · exact absurd h (by simp)
        · injection h with h1
          have hshape : GuestShape cap l :=
            ⟨hne, hsp, [], r1, by rw [e1]; simp⟩
          exact h1 ▸ hshape

theorem tryBarName_shape (l g : List Char) (h : tryBarName l = some g) :
    GuestShape g l := by
  rw [tryBarName] at h
  split at h
  · exact absurd h (by simp)
  · rename_i cap r1 hn
    obtain ⟨e1, hne, hsp⟩ :=
      parseName_shape parseWordCS parseWordCS_decomp (l.dropWhile isPySpace)
        cap r1 hn
    split at h
    · injection h with h1
      have hshape : GuestShape cap l := by
        refine ⟨hne, hsp, l.takeWhile isPySpace, r1, ?_⟩
        conv_rhs => rw [← List.takeWhile_append_dropWhile (p := isPySpace) (l := l)]
        rw [e1]
        simp
      exact h1 ▸ hshape
    · exact absurd h (by simp)

theorem searchBar_shape :
    ∀ l g, searchBar l = some g → GuestShape g l := by
  intro l
  induction l with
  | nil => intro g h; simp [searchBar] at h
  | cons c rest ih =>
    intro g h
    rw [searchBar] at h
    split at h
    · split at h
      · rename_i cap ht
        injection h with h1
        obtain ⟨hne, hsp, hinf⟩ := tryBarName_shape rest cap ht
        have hshape : GuestShape cap (c :: rest) :=
          ⟨hne, hsp, List.infix_cons hinf⟩
        exact h1 ▸ hshape
      · obtain ⟨hne, hsp, hinf⟩ := ih g h
        exact ⟨hne, hsp, List.infix_cons hinf⟩
    · obtain ⟨hne, hsp, hinf⟩ := ih g h
      exact ⟨hne, hsp, List.infix_cons hinf⟩

theorem extract_guest_shape (title g : List Char)
    (h : (extract_guest_from_title title).2 = some g) : GuestShape g title := by
  rw [extract_guest_from_title] at h
  split at h
  · rename_i gg hs
    injection h with h1
    exact h1 ▸ searchWith_shape title none gg hs
  · split at h
    · rename_i gg hs
      injection h with h1
      exact h1 ▸ searchFt_shape title none gg hs
    · split at h
      · rename_i gg hs
        injection h with h1
        exact h1 ▸ tryNameOn_shape title gg hs
      · split at h
        · rename_i gg hs
          injection h with h1
          exact h1 ▸ searchBar_shape title gg hs
        · exact absurd h (by simp)

theorem extract_guest_fst (title : List Char) :
    (extract_guest_from_title title).1 = title := by
  rw [extract_guest_from_title]
  split
  · rfl
  · split
    · rfl
    · split
      · rfl
      · split
        · rfl
        · rfl

def exTitleWith : List Char := "AI and the Future with Jane Smith".data
def exGuestWith : List Char := "Jane Smith".data
def exTitleFt : List Char := "Building Startups ft. John Doe".data
def exGuestFt : List Char := "John Doe".data
def exTitleNone : List Char := "Quarterly Update".data
def exTitleLc : List Char := "chat with jane smith".data
def exGuestLc : List Char := "jane smith".data

/-- C8 (amended): the original title is always returned unchanged as the
first component; an extracted guest is nonempty, has at least two
whitespace-separated words and occurs verbatim in the title; the `with` and
`ft./featuring` heuristics match case-insensitively (so the name words need
not be capitalized there) while the `<Name> on` and end-anchored `| <Name>` /
`- <Name>` heuristics require capitalized words; the spec's examples hold,
and "Quarterly Update" yields no guest. -/
theorem extract_guest_amended :
    (∀ title : List Char, (extract_guest_from_title title).1 = title)
    ∧ (∀ title g : List Char, (extract_guest_from_title title).2 = some g →
         g ≠ [] ∧ g.any isPySpace = true ∧ g <:+: title)
    ∧ extract_guest_from_title exTitleWith = (exTitleWith, some exGuestWith)
    ∧ extract_guest_from_title exTitleFt = (exTitleFt, some exGuestFt)
    ∧ extract_guest_from_title exTitleNone = (exTitleNone, none)
    ∧ extract_guest_from_title exTitleLc = (exTitleLc, some exGuestLc) := by
  refine ⟨extract_guest_fst, extract_guest_shape, ?_, ?_, ?_, ?_⟩
  · decide
  · decide
  · decide
  · decide

/-- Predicate written from the claim's words: a name of two or more
capitalized words (each an uppercase letter followed by lowercase letters). -/
def specCapitalizedName (g : List Char) : Bool :=
  decide ((splitWords g).length ≥ 2)
  && (splitWords g).all fun w =>
      match w with
      | c :: rest => c.isUpper && !rest.isEmpty && rest.all Char.isLower
      | [] => false

/-- C8 fails as stated: `re.IGNORECASE` on the `with` pattern makes
`[A-Z][a-z]+` match any letters, so "chat with jane smith" yields the guest
"jane smith", which is not made of capitalized words. -/
theorem extract_guest_capitalization_fails :
    (extract_guest_from_title exTitleLc).2 = some exGuestLc
    ∧ specCapitalizedName exGuestLc = false := by
  decide

/-! Reranking (src/rerank/cross_encoder.py lines 44-86).  A search hit is a
document with its denormalized source fields and the retrieval score; the
cross-encoder collaborator is a function scoring one (query, passage) pair
(the spec's Reranking Provider interface); scores are modelled as integers
(floats under their linear order, NaN-free).  Python's `sorted(...,
reverse=True)` is a stable sort; any stable sort by the same key computes
the same list, embedded here as a stable descending insertion sort. -/

structure Source where
  chunk_id : List Char
  title : List Char
  podcast_name : List Char
  host : List Char
  guest : Option (List Char)
  date : List Char
  timestamp : Option (List Char)
  url : List Char
  chunk_text : List Char
deriving DecidableEq

structure Hit where
  source : Source
  score : Int
deriving DecidableEq

/-- A hit after reranking: the original hit record (all fields, the
retrieval score included) plus the new `_rerank_score` field. -/
structure RerankedHit where
  hit : Hit
  rerank_score : Int
deriving DecidableEq

/-- Lines 66-77: form the (query, chunk_text) pair and attach the
cross-encoder score as the new field. -/
def attachScore (predict : List Char → List Char → Int) (query : List Char)
    (h : Hit) : RerankedHit :=
  ⟨h, predict query h.source.chunk_text⟩

/-- Stable descending insertion: a new element goes before the first element
whose score is not larger, so earlier elements win ties. -/
def insertDesc (x : RerankedHit) : List RerankedHit → List RerankedHit
  | [] => [x]
  | y :: ys =>
    if y.rerank_score ≤ x.rerank_score then x :: y :: ys else y :: insertDesc x ys

/-- Stable sort, descending by `_rerank_score`: models line 80,
`sorted(hits, key=lambda x: x.get("_rerank_score", 0), reverse=True)` (after
line 77 every hit has the field). -/
def sortDesc : List RerankedHit → List RerankedHit
  | [] => []
  | a :: l => insertDesc a (sortDesc l)

/-- `rerank_results` of src/rerank/cross_encoder.py lines 44-86.  The second
component records whether the reranking model was loaded and invoked (the
empty-input path at lines 62-63 returns before `get_rerank_model`). -/
def rerank_results (predict : List Char → List Char → Int) (query : List Char)
    (hits : List Hit) (top_k : Option Nat) : List RerankedHit × Bool :=
  if hits.isEmpty then ([], false)
  else
    let reranked := sortDesc (hits.map (attachScore predict query))
    (match top_k with
     | none => reranked
     | some k => reranked.take k, true)

theorem insertDesc_perm (x : RerankedHit) (l : List RerankedHit) :
    (insertDesc x l).Perm (x :: l) := by
  induction l with
  | nil => simp [insertDesc]
  | cons y ys ih =>
    rw [insertDesc]
    split
    · exact List.Perm.refl _
    · exact (ih.cons y).trans (List.Perm.swap x y ys)

theorem sortDesc_perm (l : List RerankedHit) : (sortDesc l).Perm l := by
  induction l with
  | nil => simp [sortDesc]
  | cons a l ih => exact (insertDesc_perm a (sortDesc l)).trans (ih.cons a)

theorem insertDesc_sorted (x : RerankedHit) (l : List RerankedHit)
    (hl : l.Pairwise (fun a b => b.rerank_score ≤ a.rerank_score)) :
    (insertDesc x l).Pairwise (fun a b => b.rerank_score ≤ a.rerank_score) := by
  induction l with
  | nil => simp [insertDesc]
  | cons y ys ih =>
    rw [insertDesc]
    split
    · rename_i hxy
      refine List.Pairwise.cons ?_ hl
      intro z hz
      rcases List.mem_cons.mp hz with hz1 | hz1
      · subst hz1; omega
      · have := (List.pairwise_cons.mp hl).1 z hz1
        omega
    · rename_i hxy
      have hys := (List.pairwise_cons.mp hl).2
      refine List.Pairwise.cons ?_ (ih hys)
      intro z hz
      have hz' := (insertDesc_perm x ys).mem_iff.mp hz
      rcases List.mem_cons.mp hz' with hz1 | hz1
      · subst hz1; omega
      · exact (List.pairwise_cons.mp hl).1 z hz1

theorem sortDesc_sorted (l : List RerankedHit) :
    (sortDesc l).Pairwise (fun a b => b.rerank_score ≤ a.rerank_score) := by
  induction l with
  | nil => simp [sortDesc]
  | cons a l ih => exact insertDesc_sorted a (sortDesc l) ih

theorem filter_insertDesc (s : Int) (x : RerankedHit) (l : List RerankedHit) :
    (insertDesc x l).filter (fun h => h.rerank_score == s)
      = if x.rerank_score == s then
          x :: l.filter (fun h => h.rerank_score == s)
        else l.filter (fun h => h.rerank_score == s) := by
  induction l with
  | nil =>
    cases hx : (x.rerank_score == s) <;>
      simp [insertDesc, List.filter_cons, hx]
  | cons y ys ih =>
    rw [insertDesc]
    split
    · rename_i hxy
      cases hx : (x.rerank_score == s) <;>
        simp [List.filter_cons, hx]
    · rename_i hxy
      cases hx : (x.rerank_score == s) <;>
        cases hy : (y.rerank_score == s)
      · simp [List.filter_cons, hx, hy, ih]
      · simp [List.filter_cons, hx, hy, ih]
      · simp [List.filter_cons, hx, hy, ih]
      · exfalso
        have ex : x.rerank_score = s := by simpa using hx
        have ey : y.rerank_score = s := by simpa using hy
        omega

theorem sortDesc_filter (s : Int) (l : List RerankedHit) :
    (sortDesc l).filter (fun h => h.rerank_score == s)
      = l.filter (fun h => h.rerank_score == s) := by
  induction l with
  | nil => simp [sortDesc]
  | cons a l ih =>
    rw [sortDesc, filter_insertDesc]
    cases ha : (a.rerank_score == s)
    · simp [List.filter_cons, ha, ih]
    · simp [List.filter_cons, ha, ih]

/-- C6: with `top_k` absent, reranking returns a permutation of the input
hits (each output element carries one original hit record intact, its
retrieval score field included, so identifiers and count are preserved),
sorted descending by the newly attached rerank score, with exactly-equal
scores kept in the original relative order (the filter at every score value
is unchanged); the empty hit list yields the empty list with the model never
loaded nor invoked, and the model is invoked exactly when the input is
nonempty. -/
theorem rerank_results_spec (predict : List Char → List Char → Int)
    (query : List Char) (hits : List Hit) :
    ((rerank_results predict query hits none).1.map RerankedHit.hit).Perm hits
    ∧ ((rerank_results predict query hits none).1.map
        fun r => r.hit.score).Perm (hits.map Hit.score)
    ∧ (rerank_results predict query hits none).1.Pairwise
        (fun a b => b.rerank_score ≤ a.rerank_score)
    ∧ (∀ s : Int,
        (rerank_results predict query hits none).1.filter
            (fun h => h.rerank_score == s)
          = (hits.map (attachScore predict query)).filter
              (fun h => h.rerank_score == s))
    ∧ rerank_results predict query ([] : List Hit) none = ([], false)
    ∧ (rerank_results predict query hits none).2 = !hits.isEmpty := by
  by_cases hE : hits.isEmpty
  · have hnil : hits = [] := List.isEmpty_iff.mp hE
    subst hnil
    refine ⟨?_, ?_, ?_, ?_, ?_, ?_⟩ <;> simp [rerank_results]
  · have hperm0 : ((rerank_results predict query hits none).1).Perm
        (hits.map (attachScore predict query)) := by
      simp only [rerank_results, hE, Bool.false_eq_true, if_false]
      exact sortDesc_perm _
    have hmapid : (hits.map (attachScore predict query)).map RerankedHit.hit
        = hits := by
      rw [List.map_map]
      have : RerankedHit.hit ∘ attachScore predict query = id := by
        funext h
        rfl
      rw [this, List.map_id]
    refine ⟨?_, ?_, ?_, ?_, ?_, ?_⟩
    · have := hperm0.map RerankedHit.hit
      rw [hmapid] at this
      exact this
    · have := hperm0.map fun r => r.hit.score
      refine this.trans ?_
      rw [List.map_map]
      have : ((fun r => r.hit.score) ∘ attachScore predict query) = Hit.score := by
        funext h
        rfl
      rw [this]
    · simp only [rerank_results, hE, Bool.false_eq_true, if_false]
      exact sortDesc_sorted _
    · intro s
      simp only [rerank_results, hE, Bool.false_eq_true, if_false]
      exact sortDesc_filter s _
    · simp [rerank_results]
    · simp [rerank_results, hE]

/-! Context assembly (src/llm/prompt.py lines 197-255). -/

def truncMarker : List Char := "... [truncated]".data

/-- Python `s.rsplit(" ", 1)[0]` when `" " in s`: everything before the last
space. -/
def dropAfterLastSpace (l : List Char) : List Char :=
  ((l.reverse.dropWhile fun c => c ≠ ' ').tail).reverse

/-- The chunk-text transformation of `build_context` (lines 212-219): text
longer than the (truthy) character budget is cut at the budget, pulled back
to the last space when one is present, and suffixed with the marker.  A
budget of 0 is falsy in Python, which disables truncation. -/
def truncate_chunk_text (budget : Nat) (c : List Char) : List Char :=
  if budget ≠ 0 ∧ budget < c.length then
    let truncated := c.take budget
    let t2 := if ' ' ∈ truncated then dropAfterLastSpace truncated else truncated
    t2 ++ truncMarker
  else c

/-- The `guest_info` fragment: Python truthiness makes `None` and the empty
string both render as nothing. -/
def renderGuestInfo : Option (List Char) → List Char
  | some g => if g = [] then [] else " with ".data ++ g
  | none => []

/-- The `timestamp_info` fragment. -/
def renderTimestampInfo : Option (List Char) → List Char
  | some t => if t = [] then [] else " [".data ++ t ++ "]".data
  | none => []

/-- One hit's record in the context block (lines 221-228). -/
def renderHit (budget : Nat) (h : Hit) : List Char :=
  "EPISODE: ".data ++ h.source.title
  ++ "\nPODCAST: ".data ++ h.source.podcast_name
  ++ " - Host: ".data ++ h.source.host ++ renderGuestInfo h.source.guest
  ++ "\nDATE: ".data ++ h.source.date ++ renderTimestampInfo h.source.timestamp
  ++ "\nURL: ".data ++ h.source.url
  ++ "\nTRANSCRIPT:\n".data ++ truncate_chunk_text budget h.source.chunk_text
  ++ "\n---".data

/-- Python `"\n\n".join(chunks)`. -/
def joinContext : List (List Char) → List Char
  | [] => []
  | [x] => x
  | x :: y :: rest => x ++ "\n\n".data ++ joinContext (y :: rest)

/-- `build_context` of src/llm/prompt.py lines 197-229 (the module constant
CONTEXT_CHUNK_MAX_CHARS, default 800, passed as `budget`). -/
def build_context (budget : Nat) (hits : List Hit) : List Char :=
  joinContext (hits.map (renderHit budget))

/-- `build_podcast_prompt` of src/llm/prompt.py lines 232-255. -/
def build_podcast_prompt (user_query context : List Char) : List Char :=
  ("You are an assistant that answers questions using ONLY the CONTEXT below. "
    ++ "If the answer is not in the context, respond: 'I don't know.' "
    ++ "When answering, mention the episode title and podcast name, "
    ++ "include relevant quotes, "
    ++ "and cite the episode URL if citing specifics. "
    ++ "Do not invent information.\n\nCONTEXT:\n").data
  ++ context
  ++ "\n\nUSER QUESTION:\n".data ++ user_query ++ "\n\nAnswer:\n".data

theorem dropWhile_first_not {α : Type} (p : α → Bool) :
    ∀ (l : List α) (x : α) (xs : List α), l.dropWhile p = x :: xs → p x = false := by
  intro l
  induction l with
  | nil => intro x xs h; simp at h
  | cons c cs ih =>
    intro x xs h
    rw [List.dropWhile_cons] at h
    split at h
    · exact ih x xs h
    · rename_i hc
      injection h with h1 h2
      subst h1
      simpa using hc

theorem dropAfterLastSpace_spec (l : List Char) (hsp : ' ' ∈ l) :
    ∃ t, l = dropAfterLastSpace l ++ ' ' :: t ∧ ' ' ∉ t := by
  have hsp' : ' ' ∈ l.reverse := List.mem_reverse.mpr hsp
  have hb : l.reverse.dropWhile (fun c => c ≠ ' ') ≠ [] := by
    intro hcontra
    rw [List.dropWhile_eq_nil_iff] at hcontra
    have := hcontra ' ' hsp'
    simp at this
  cases hdrop : l.reverse.dropWhile (fun c => c ≠ ' ') with
  | nil => exact absurd hdrop hb
  | cons b tb =>
    have hbsp : b = ' ' := by
      have := dropWhile_first_not (fun c => c ≠ ' ') l.reverse b tb hdrop
      simpa using this
    subst hbsp
    have hsplit : l.reverse.takeWhile (fun c => c ≠ ' ') ++ ' ' :: tb = l.reverse := by
      rw [← hdrop, List.takeWhile_append_dropWhile]
    refine ⟨(l.reverse.takeWhile fun c => c ≠ ' ').reverse, ?_, ?_⟩
    · rw [dropAfterLastSpace, hdrop]
      conv_lhs => rw [← l.reverse_reverse, ← hsplit]
      simp
    · intro hmem
      have hmem' : ' ' ∈ l.reverse.takeWhile (fun c => c ≠ ' ') :=
        List.mem_reverse.mp hmem
      have := List.mem_takeWhile_imp hmem'
      simp at this

/-- An element of a joined context list occurs verbatim in the join. -/
theorem mem_infix_joinContext :
    ∀ xs (x : List Char), x ∈ xs → x <:+: joinContext xs := by
  intro xs
  induction xs with
  | nil => intro x hx; simp at hx
  | cons a rest ih =>
    intro x hx
    cases rest with
    | nil =>
      rcases List.mem_cons.mp hx with h1 | h1
      · subst h1; exact List.infix_refl _
      · simp at h1
    | cons b rest2 =>
      rcases List.mem_cons.mp hx with h1 | h1
      · subst h1
        exact ⟨[], "\n\n".data ++ joinContext (b :: rest2), by
          rw [joinContext]; simp⟩
      · obtain ⟨s, t, hst⟩ := ih x h1
        exact ⟨a ++ "\n\n".data ++ s, t, by
          rw [joinContext, ← hst]; simp⟩

/-- The truncated chunk text occurs verbatim in each hit's rendered record. -/
theorem truncate_infix_renderHit (budget : Nat) (h : Hit) :
    truncate_chunk_text budget h.source.chunk_text <:+: renderHit budget h := by
  refine ⟨"EPISODE: ".data ++ h.source.title
    ++ "\nPODCAST: ".data ++ h.source.podcast_name
    ++ " - Host: ".data ++ h.source.host ++ renderGuestInfo h.source.guest
    ++ "\nDATE: ".data ++ h.source.date ++ renderTimestampInfo h.source.timestamp
    ++ "\nURL: ".data ++ h.source.url
    ++ "\nTRANSCRIPT:\n".data, "\n---".data, ?_⟩
  simp [renderHit, List.append_assoc]

/-- C7: with a positive configured budget, chunk text at or under the budget
renders unchanged; longer chunk text renders as a prefix of the original cut
at the nearest preceding word boundary (either the first `budget` characters
contain no space and are kept whole, or the cut is exactly at the last space
within them), suffixed with the explicit marker, and never exceeding
`budget + marker length` characters; every hit's (possibly truncated) chunk
text occurs verbatim in `build_context`'s output. -/
theorem build_context_truncation (budget : Nat) (c : List Char)
    (hpos : 0 < budget) :
    (c.length ≤ budget → truncate_chunk_text budget c = c)
    ∧ (budget < c.length →
        (truncate_chunk_text budget c).length ≤ budget + truncMarker.length
        ∧ ∃ p, truncate_chunk_text budget c = p ++ truncMarker
            ∧ p.length ≤ budget
            ∧ p <+: c
            ∧ ((' ' ∉ c.take budget ∧ p = c.take budget)
               ∨ ∃ t, c.take budget = p ++ ' ' :: t ∧ ' ' ∉ t))
    ∧ (∀ hits : List Hit, ∀ h ∈ hits,
        truncate_chunk_text budget h.source.chunk_text
          <:+: build_context budget hits) := by
  refine ⟨?_, ?_, ?_⟩
  · intro hle
    rw [truncate_chunk_text, if_neg]
    omega
  · intro hlt
    have hcond : budget ≠ 0 ∧ budget < c.length := ⟨by omega, hlt⟩
    have htklen : (c.take budget).length = budget := by
      rw [List.length_take]
      omega
    rw [truncate_chunk_text, if_pos hcond]
    by_cases hsp : ' ' ∈ c.take budget
    · obtain ⟨t, ht, htns⟩ := dropAfterLastSpace_spec (c.take budget) hsp
      have hplen : budget
          = (dropAfterLastSpace (c.take budget)).length + (t.length + 1) := by
        have hcong := congrArg List.length ht
        rw [htklen] at hcong
        simpa using hcong
      refine ⟨?_, dropAfterLastSpace (c.take budget), ?_, ?_, ?_, ?_⟩
      · simp only [if_pos hsp]
        rw [List.length_append]
        omega
      · simp only [if_pos hsp]
      · omega
      · refine List.IsPrefix.trans ⟨' ' :: t, ht.symm⟩ (List.take_prefix budget c)
      · exact Or.inr ⟨t, ht, htns⟩
    · refine ⟨?_, c.take budget, ?_, ?_, ?_, ?_⟩
      · simp only [if_neg hsp]
        rw [List.length_append, htklen]
      · simp only [if_neg hsp]
      · omega
      · exact List.take_prefix budget c
      · exact Or.inl ⟨hsp, rfl⟩
  · intro hits h hmem
    have h1 := truncate_infix_renderHit budget h
    have h2 : renderHit budget h <:+: build_context budget hits := by
      rw [build_context]
      exact mem_infix_joinContext (hits.map (renderHit budget))
        (renderHit budget h) (List.mem_map_of_mem (renderHit budget) hmem)
    exact h1.trans h2

def exSource : Source :=
  ⟨"c1".data, "T".data, "P".data, "H".data, none, "D".data, none,
    "U".data, "hello world".data⟩

/-- Witness for `build_context_truncation` at budget 5 and the chunk text
"hello world": the rendered chunk text is "hello... [truncated]". -/
theorem build_context_truncation_witness :
    ((("hello world".data : List Char).length ≤ 5 →
        truncate_chunk_text 5 "hello world".data = "hello world".data)
    ∧ (5 < ("hello world".data : List Char).length →
        (truncate_chunk_text 5 "hello world".data).length ≤ 5 + truncMarker.length
        ∧ ∃ p, truncate_chunk_text 5 "hello world".data = p ++ truncMarker
            ∧ p.length ≤ 5
            ∧ p <+: "hello world".data
            ∧ ((' ' ∉ ("hello world".data : List Char).take 5
                  ∧ p = ("hello world".data : List Char).take 5)
               ∨ ∃ t, ("hello world".data : List Char).take 5 = p ++ ' ' :: t
                   ∧ ' ' ∉ t))
    ∧ (∀ hits : List Hit, ∀ h ∈ hits,
        truncate_chunk_text 5 h.source.chunk_text
          <:+: build_context 5 hits)) :=
  build_context_truncation 5 "hello world".data (by decide)

/-! Generation routing (src/llm/prompt.py lines 16-194 and 258-384).  The
model runtimes and the environment are collaborators gathered in `GenCfg`:
`loadOk`/`loadErr` stand for `_load_model` succeeding or raising its
RuntimeError, `call` for invoking a loaded model (the spec's Generation
Backend interface), and the two `_env` fields for the already-parsed
LLAMA_MAX_TOKENS / LLAMA_TEMPERATURE overrides of lines 326-327.  Exceptions
are values: `CallOutcome.exn` carries Python's RuntimeError-or-not flag and
the error text, and `generate_answer` returns `Except`, whose `.error` case
is an exception propagating out of the Python function.  Every `_load_model`
entry and every completion call is recorded as an `Event`.  Temperatures are
exact rationals standing for the float literals (only identity matters). -/

inductive ModelType where
  | phi3_mini
  | tinyllama
  | llama3_8b
deriving DecidableEq

/-- `default_max_tokens` of MODEL_CONFIGS (lines 24-46). -/
def defaultMaxTokens : ModelType → Int
  | .phi3_mini => 500
  | .tinyllama => 250
  | .llama3_8b => 1000

/-- The float literal 0.2 as the exact rational 1/5 (given as a reduced
fraction so that equality of temperatures is kernel-decidable). -/
def ratFifth : ℚ := ⟨1, 5, by decide, by decide⟩

/-- `default_temperature` of MODEL_CONFIGS: 0.2 for every model. -/
def defaultTemperature : ModelType → ℚ
  | _ => ratFifth

/-- `description` of MODEL_CONFIGS. -/
def descriptionOf : ModelType → List Char
  | .phi3_mini => "Phi-3 Mini (Main LLM)".data
  | .tinyllama => "TinyLlama (Fast Fallback)".data
  | .llama3_8b => "Llama-3.1-8B (Bigger Option)".data

/-- Outcome of one completion call: the response's `choices` texts, or a
raised exception (RuntimeError or any other) with its message. -/
inductive CallOutcome where
  | ok (choices : List (List Char))
  | exn (isRuntimeError : Bool) (msg : List Char)
deriving DecidableEq

/-- Observable backend activity: a `_load_model` entry or a completion
call with its token budget and temperature. -/
inductive Event where
  | load (m : ModelType)
  | call (m : ModelType) (max_tokens : Int) (temperature : ℚ)
deriving DecidableEq

structure GenCfg where
  primary_model : List Char
  fallback_model : List Char
  use_bigger_model : Bool
  loadOk : ModelType → Bool
  loadErr : ModelType → List Char
  call : ModelType → List Char → Int → ℚ → CallOutcome
  max_tokens_env : Option Int
  temperature_env : Option ℚ

/-- Python `str.lower()` (ASCII). -/
def pyLower (s : List Char) : List Char := s.map Char.toLower

/-- `_get_model_type_from_string` of lines 150-160. -/
def get_model_type_from_string (s : List Char) : Except (List Char) ModelType :=
  let t := pyLower s
  if t = "phi3".data ∨ t = "phi3_mini".data ∨ t = "phi-3-mini".data then
    .ok .phi3_mini
  else if t = "tinyllama".data ∨ t = "tiny-llama".data then
    .ok .tinyllama
  else if t = "llama3".data ∨ t = "llama3_8b".data ∨ t = "llama-3.1-8b".data
      ∨ t = "llama-3-8b".data then
    .ok .llama3_8b
  else .error ("Unknown model type: ".data ++ t)

/-- `_load_model` of lines 95-147: deterministic per model type given the
environment (memoization affects cost only); the returned model's identity
is its type.  Every entry is recorded as a load event. -/
def load_model (cfg : GenCfg) (mt : ModelType) :
    Except (List Char) ModelType × List Event :=
  if cfg.loadOk mt then (.ok mt, [.load mt])
  else (.error (cfg.loadErr mt), [.load mt])

/-- The RuntimeError text `_get_fallback_model` wraps around an inner
failure (lines 180-183). -/
def fallbackWrap (cfg : GenCfg) (e : List Char) : List Char :=
  "Failed to load fallback model (".data ++ cfg.fallback_model ++ "): ".data
    ++ e ++ ". Please configure at least one model path.".data

/-- `_get_fallback_model` of lines 174-183. -/
def get_fallback_model (cfg : GenCfg) :
    Except (List Char) ModelType × List Event :=
  match get_model_type_from_string cfg.fallback_model with
  | .ok t =>
    match load_model cfg t with
    | (.ok m, tr) => (.ok m, tr)
    | (.error e, tr) => (.error (fallbackWrap cfg e), tr)
  | .error e => (.error (fallbackWrap cfg e), [])

/-- `_get_primary_model` of lines 163-171: a parse or load failure of the
primary is caught and the fallback is returned instead; only the fallback's
RuntimeError can escape. -/
def get_primary_model (cfg : GenCfg) :
    Except (List Char) ModelType × List Event :=
  match get_model_type_from_string cfg.primary_model with
  | .ok t =>
    match load_model cfg t with
    | (.ok m, tr) => (.ok m, tr)
    | (.error e, tr) =>
      match get_fallback_model cfg with
      | (r, tr2) => (r, tr ++ tr2)
  | .error e => get_fallback_model cfg

/-- `_get_bigger_model` of lines 186-194: no attempt at all when
USE_BIGGER_MODEL is off; a load failure is absorbed to `none`. -/
def get_bigger_model (cfg : GenCfg) : Option ModelType × List Event :=
  if cfg.use_bigger_model then
    match load_model cfg .llama3_8b with
    | (.ok m, tr) => (some m, tr)
    | (.error e, tr) => (none, tr)
  else (none, [])

/-- What the selection phase of `generate_answer` (lines 274-323) ends
with: an uncaught exception, the no-models result text, or a selected model
with the display name, token budget and temperature the code tracked
(which can disagree with the model actually obtained, see
`get_primary_model`). -/
inductive SelOutcome where
  | raised (e : List Char)
  | noModels (text : List Char)
  | selected (m : ModelType) (name : List Char) (max_tokens : Int)
      (temperature : ℚ)
deriving DecidableEq

/-- Step 1 of the selection (lines 280-288): the bigger model for a long
prompt. -/
def select_step1 (cfg : GenCfg) (prompt : List Char) (bigger : Bool) :
    Option (ModelType × List Char × Int × ℚ) × List Event :=
  if bigger ∧ prompt.length > 4000 then
    match get_bigger_model cfg with
    | (some m, tr) =>
      (some (m, "Llama-3.1-8B".data, defaultMaxTokens .llama3_8b,
        defaultTemperature .llama3_8b), tr)
    | (none, tr) => (none, tr)
  else (none, [])

/-- Step 2 of the selection (lines 290-300): a truthy explicit preference
(the empty string is falsy and skipped); parse and load failures are
absorbed. -/
def select_step2 (cfg : GenCfg) (pref : Option (List Char)) :
    Option (ModelType × List Char × Int × ℚ) × List Event :=
  match pref with
  | none => (none, [])
  | some p =>
    if p = [] then (none, [])
    else
      match get_model_type_from_string p with
      | .ok t =>
        match load_model cfg t with
        | (.ok m, tr) =>
          (some (m, descriptionOf t, defaultMaxTokens t,
            defaultTemperature t), tr)
        | (.error e, tr) => (none, tr)
      | .error e => (none, [])

/-- The selection phase of `generate_answer`, lines 274-323.  Step 3 is the
primary (re-parsing PRIMARY_MODEL at line 306 outside any ValueError
handler — the only raise site of the function), step 4 the fallback with
TinyLlama's display name and defaults hard-coded (lines 317-320). -/
def select_model (cfg : GenCfg) (prompt : List Char)
    (pref : Option (List Char)) (bigger : Bool) : SelOutcome × List Event :=
  match select_step1 cfg prompt bigger with
  | (some (m, nm, mx, tp), tr1) => (.selected m nm mx tp, tr1)
  | (none, tr1) =>
    match select_step2 cfg pref with
    | (some (m, nm, mx, tp), tr2) => (.selected m nm mx tp, tr1 ++ tr2)
    | (none, tr2) =>
      match get_primary_model cfg with
      | (.ok m, tr3) =>
        match get_model_type_from_string cfg.primary_model with
        | .ok pt =>
          (.selected m (descriptionOf pt) (defaultMaxTokens pt)
            (defaultTemperature pt), tr1 ++ tr2 ++ tr3)
        | .error e => (.raised e, tr1 ++ tr2 ++ tr3)
      | (.error e, tr3) =>
        match get_fallback_model cfg with
        | (.ok m, tr4) =>
          (.selected m (descriptionOf .tinyllama)
            (defaultMaxTokens .tinyllama) (defaultTemperature .tinyllama),
            tr1 ++ tr2 ++ tr3 ++ tr4)
        | (.error e2, tr4) =>
          (.noModels ("Error: No models available. ".data ++ e2),
            tr1 ++ tr2 ++ tr3 ++ tr4)

/-- The overflow-indicator test of lines 346-347. -/
def hasOverflowIndicator (msg : List Char) : Bool :=
  decide ("exceed context window".data <:+: msg)
  || decide ("Requested tokens".data <:+: msg)
  || decide ("context window".data <:+: msg)

/-- The note appended when the reduced-token retry succeeds (line 362). -/
def reducedNote (name : List Char) : List Char :=
  "\n\n(Note: output was generated with a reduced max token limit due to ".data
    ++ name ++ "'s context window.)".data

/-- The note appended when the fallback-model retry succeeds (line 378). -/
def fallbackNote : List Char :=
  "\n\n(Note: Generated using fallback model due to context limitations.)".data

/-- The return text of line 381. -/
def afterReduceErr (msg2 : List Char) : List Char :=
  "Error generating answer after reducing tokens: ".data ++ msg2

/-- Lines 326: `int(os.getenv("LLAMA_MAX_TOKENS", max_tokens))`. -/
def effMax (cfg : GenCfg) (mx : Int) : Int := cfg.max_tokens_env.getD mx

/-- Line 327: `float(os.getenv("LLAMA_TEMPERATURE", temperature))`. -/
def effTemp (cfg : GenCfg) (tp : ℚ) : ℚ := cfg.temperature_env.getD tp

/-- The execution phase of `generate_answer`, lines 325-384: the call, the
RuntimeError path, the overflow-detected reduced-token retry on the same
model, and the further hard-coded-TinyLlama-settings call on the fallback
model when the display name is not TinyLlama's.  Never raises. -/
def execute_call (cfg : GenCfg) (m : ModelType) (name : List Char)
    (mx : Int) (tp : ℚ) (prompt : List Char) : List Char × List Event :=
  let max_tokens := effMax cfg mx
  let temperature := effTemp cfg tp
  let ev1 := Event.call m max_tokens temperature
  match cfg.call m prompt max_tokens temperature with
  | .ok [] => (name ++ " returned no output.".data, [ev1])
  | .ok (p :: ps) => (pyStrip p, [ev1])
  | .exn true msg => ("Error with ".data ++ name ++ ": ".data ++ msg, [ev1])
  | .exn false msg =>
    if hasOverflowIndicator msg then
      let fallback_max := min 256 max_tokens
      let ev2 := Event.call m fallback_max temperature
      match cfg.call m prompt fallback_max temperature with
      | .ok [] =>
        (name ++ " returned no output after retrying with smaller token limit.".data,
          [ev1, ev2])
      | .ok (p :: ps) => (pyStrip p ++ reducedNote name, [ev1, ev2])
      | .exn b2 msg2 =>
        if name ≠ descriptionOf .tinyllama then
          match get_fallback_model cfg with
          | (.ok fm, ltr) =>
            let ev3 := Event.call fm (defaultMaxTokens .tinyllama)
              (defaultTemperature .tinyllama)
            match cfg.call fm prompt (defaultMaxTokens .tinyllama)
                (defaultTemperature .tinyllama) with
            | .ok (q :: qs) =>
              (pyStrip q ++ fallbackNote, [ev1, ev2] ++ ltr ++ [ev3])
            | .ok [] => (afterReduceErr msg2, [ev1, ev2] ++ ltr ++ [ev3])
            | .exn b3 msg3 => (afterReduceErr msg2, [ev1, ev2] ++ ltr ++ [ev3])
          | (.error e, ltr) => (afterReduceErr msg2, [ev1, ev2] ++ ltr)
        else (afterReduceErr msg2, [ev1, ev2])
    else ("Error generating answer with ".data ++ name ++ ": ".data ++ msg, [ev1])

/-- `generate_answer` of src/llm/prompt.py lines 258-384: selection then
execution; `.error` is an exception escaping to the caller. -/
def generate_answer (cfg : GenCfg) (prompt : List Char)
    (pref : Option (List Char)) (bigger : Bool) :
    Except (List Char) (List Char) × List Event :=
  match select_model cfg prompt pref bigger with
  | (.raised e, tr) => (.error e, tr)
  | (.noModels t, tr) => (.ok t, tr)
  | (.selected m nm mx tp, tr) =>
    (.ok (execute_call cfg m nm mx tp prompt).1,
      tr ++ (execute_call cfg m nm mx tp prompt).2)

/-- The completion calls of a trace (the load events dropped). -/
def callEvents : List Event → List (ModelType × Int × ℚ)
  | [] => []
  | .load m :: rest => callEvents rest
  | .call m mx tp :: rest => (m, mx, tp) :: callEvents rest

/-- The backend an event concerns. -/
def eventModel : Event → ModelType
  | .load m => m
  | .call m mx tp => m

theorem callEvents_append (a b : List Event) :
    callEvents (a ++ b) = callEvents a ++ callEvents b := by
  induction a with
  | nil => simp [callEvents]
  | cons e rest ih => cases e <;> simp [callEvents, ih]

theorem load_model_trace (cfg : GenCfg) (mt : ModelType) :
    (load_model cfg mt).2 = [Event.load mt] := by
  rw [load_model]
  split <;> rfl

theorem callEvents_load_model (cfg : GenCfg) (mt : ModelType) :
    callEvents (load_model cfg mt).2 = [] := by
  rw [load_model_trace]
  rfl

theorem callEvents_get_fallback (cfg : GenCfg) :
    callEvents (get_fallback_model cfg).2 = [] := by
  rw [get_fallback_model]
  split
  · rename_i t hp
    rcases hl : load_model cfg t with ⟨r, tr⟩
    have htr : tr = [Event.load t] := by
      have := load_model_trace cfg t
      rw [hl] at this
      exact this
    cases r <;> simp [hl, htr, callEvents]
  · rfl

theorem callEvents_get_primary (cfg : GenCfg) :
    callEvents (get_primary_model cfg).2 = [] := by
  rw [get_primary_model]
  split
  · rename_i t hp
    rcases hl : load_model cfg t with ⟨r, tr⟩
    have htr : tr = [Event.load t] := by
      have := load_model_trace cfg t
      rw [hl] at this
      exact this
    cases r with
    | ok m => simp [hl, htr, callEvents]
    | error e =>
      rcases hf : get_fallback_model cfg with ⟨r2, tr2⟩
      have htr2 : callEvents tr2 = [] := by
        have := callEvents_get_fallback cfg
        rw [hf] at this
        exact this
      simp [hl, hf, htr, callEvents_append, htr2, callEvents]
  · exact callEvents_get_fallback cfg

theorem callEvents_get_bigger (cfg : GenCfg) :
    callEvents (get_bigger_model cfg).2 = [] := by
  rw [get_bigger_model]
  split
  · rcases hl : load_model cfg .llama3_8b with ⟨r, tr⟩
    have htr : tr = [Event.load .llama3_8b] := by
      have := load_model_trace cfg .llama3_8b
      rw [hl] at this
      exact this
    cases r <;> simp [hl, htr, callEvents]
  · rfl

theorem callEvents_select_step1 (cfg : GenCfg) (prompt : List Char)
    (bigger : Bool) : callEvents (select_step1 cfg prompt bigger).2 = [] := by
  rw [select_step1]
  split
  · rcases hb : get_bigger_model cfg with ⟨r, tr⟩
    have htr : callEvents tr = [] := by
      have := callEvents_get_bigger cfg
      rw [hb] at this
      exact this
    cases r <;> simp [hb, htr]
  · rfl

theorem callEvents_select_step2 (cfg : GenCfg) (pref : Option (List Char)) :
    callEvents (select_step2 cfg pref).2 = [] := by
  rw [select_step2.eq_def]
  split
  · rfl
  · rename_i p
    split
    · rfl
    · split
      · rename_i t hp
        rcases hl : load_model cfg t with ⟨r, tr⟩
        have htr : tr = [Event.load t] := by
          have := load_model_trace cfg t
          rw [hl] at this
          exact this
        cases r <;> simp [hl, htr, callEvents]
      · rfl

theorem callEvents_select_model (cfg : GenCfg) (prompt : List Char)
    (pref : Option (List Char)) (bigger : Bool) :
    callEvents (select_model cfg prompt pref bigger).2 = [] := by
  rw [select_model]
  rcases h1 : select_step1 cfg prompt bigger with ⟨o1, tr1⟩
  have e1 : callEvents tr1 = [] := by
    have := callEvents_select_step1 cfg prompt bigger
    rw [h1] at this
    exact this
  cases o1 with
  | some q =>
    obtain ⟨m, nm, mx, tp⟩ := q
    simp [e1]
  | none =>
    rcases h2 : select_step2 cfg pref with ⟨o2, tr2⟩
    have e2 : callEvents tr2 = [] := by
      have := callEvents_select_step2 cfg pref
      rw [h2] at this
      exact this
    cases o2 with
    | some q =>
      obtain ⟨m, nm, mx, tp⟩ := q
      simp [callEvents_append, e1, e2]
    | none =>
      rcases h3 : get_primary_model cfg with ⟨r3, tr3⟩
      have e3 : callEvents tr3 = [] := by
        have := callEvents_get_primary cfg
        rw [h3] at this
        exact this
      cases r3 with
      | ok m =>
        rcases hp : get_model_type_from_string cfg.primary_model with e | pt
          <;> simp [hp, callEvents_append, e1, e2, e3]
      | error e =>
        rcases h4 : get_fallback_model cfg with ⟨r4, tr4⟩
        have e4 : callEvents tr4 = [] := by
          have := callEvents_get_fallback cfg
          rw [h4] at this
          exact this
        cases r4 <;> simp [h4, callEvents_append, e1, e2, e3, e4]

/-- The execution phase always begins with the completion call on the
selected model at the effective budget and temperature. -/
theorem execute_call_trace_head (cfg : GenCfg) (m : ModelType)
    (name : List Char) (mx : Int) (tp : ℚ) (prompt : List Char) :
    ∃ rest, (execute_call cfg m name mx tp prompt).2
      = Event.call m (effMax cfg mx) (effTemp cfg tp) :: rest := by
  simp only [execute_call]
  repeat' split
  all_goals exact ⟨_, rfl⟩

deriving instance DecidableEq for Except

def cfgC1 : GenCfg :=
  ⟨"gpt4".data, "tinyllama".data, false,
    (fun mt => mt == .tinyllama), (fun mt => "model path not set".data),
    (fun mt prompt mx tp => .ok ["ok".data]), none, none⟩

/-- C1: evaluation of `generate_answer` at the failing configuration.  With
an unrecognized PRIMARY_MODEL ("gpt4") and a loadable fallback, the fallback
model is obtained, but line 306 re-parses PRIMARY_MODEL outside any
ValueError handler (the surrounding `except` catches RuntimeError only), so
the ValueError "Unknown model type: gpt4" propagates to the caller instead
of a string being returned. -/
theorem generate_answer_raises_on_unknown_primary :
    generate_answer cfgC1 "hi".data none false
      = (.error ("Unknown model type: gpt4".data), [.load .tinyllama])
    ∧ (get_fallback_model cfgC1).1 = .ok .tinyllama := by
  decide

def cfgC5 : GenCfg :=
  ⟨"phi3_mini".data, "tinyllama".data, false,
    (fun mt => true), (fun mt => []),
    (fun mt prompt mx tp => .ok ["hi".data]), none, none⟩

/-- C5 fails as stated: with `use_bigger_for_long_context = true` and a
prompt of 4001 characters but USE_BIGGER_MODEL unset in the environment,
`_get_bigger_model` returns None without any attempt, and the whole run
touches only the primary model — no load and no call ever concerns the
bigger backend. -/
theorem generate_answer_bigger_skipped :
    (List.replicate 4001 'a' : List Char).length > 4000
    ∧ (generate_answer cfgC5 (List.replicate 4001 'a') none true).2
        = [.load .phi3_mini, .call .phi3_mini 500 ratFifth]
    ∧ ((generate_answer cfgC5 (List.replicate 4001 'a') none true).2.all
        fun e => !(eventModel e == .llama3_8b)) = true := by
  have hlen : (List.replicate 4001 'a' : List Char).length = 4001 := by
    rw [List.length_replicate]
  have hs1 : select_step1 cfgC5 (List.replicate 4001 'a') true = (none, []) := by
    rw [select_step1, if_pos ⟨rfl, by rw [hlen]; omega⟩, get_bigger_model,
      if_neg (by decide)]
  have hsel : select_model cfgC5 (List.replicate 4001 'a') none true
      = (.selected .phi3_mini (descriptionOf .phi3_mini) 500 ratFifth,
          [.load .phi3_mini]) := by
    rw [select_model, hs1]
    decide
  have hc : cfgC5.call .phi3_mini (List.replicate 4001 'a') (effMax cfgC5 500)
      (effTemp cfgC5 ratFifth) = .ok ["hi".data] := rfl
  have hexec : execute_call cfgC5 .phi3_mini (descriptionOf .phi3_mini) 500
      ratFifth (List.replicate 4001 'a')
      = ("hi".data, [.call .phi3_mini 500 ratFifth]) := by
    simp only [execute_call, hc]
    decide
  refine ⟨by rw [hlen]; omega, ?_, ?_⟩
  · simp only [generate_answer, hsel, hexec]
    rfl
  · simp only [generate_answer, hsel, hexec]
    decide

/-- C5 (amended): when `use_bigger_for_long_context` is true, the prompt
exceeds 4000 characters, the bigger-model feature is enabled
(USE_BIGGER_MODEL) and the Llama-3.1-8B model loads, the long-context
backend comes first: the run's first backend event is its load and the
first completion call is on it, with its defaults (1000 tokens, 0.2) unless
the environment overrides apply — before any preferred, primary or fallback
backend. -/
theorem generate_answer_bigger_first (cfg : GenCfg) (prompt : List Char)
    (pref : Option (List Char))
    (hbig : cfg.use_bigger_model = true)
    (hload : cfg.loadOk .llama3_8b = true)
    (hlen : prompt.length > 4000) :
    (generate_answer cfg prompt pref true).2.head? = some (.load .llama3_8b)
    ∧ (callEvents (generate_answer cfg prompt pref true).2).head?
        = some (.llama3_8b, effMax cfg 1000, effTemp cfg ratFifth) := by
  have hs1 : select_step1 cfg prompt true
      = (some (.llama3_8b, "Llama-3.1-8B".data, 1000, ratFifth),
          [.load .llama3_8b]) := by
    rw [select_step1, if_pos ⟨rfl, hlen⟩, get_bigger_model, if_pos hbig,
      load_model, if_pos hload]
    rfl
  have hsel : select_model cfg prompt pref true
      = (.selected .llama3_8b ("Llama-3.1-8B".data) 1000 ratFifth,
          [.load .llama3_8b]) := by
    rw [select_model, hs1]
  obtain ⟨rest, hex⟩ := execute_call_trace_head cfg .llama3_8b
    ("Llama-3.1-8B".data) 1000 ratFifth prompt
  constructor
  · simp only [generate_answer, hsel]
    rw [List.singleton_append]
    rfl
  · simp only [generate_answer, hsel, hex]
    rw [List.singleton_append]
    rfl

def cfgC5w : GenCfg :=
  ⟨"phi3_mini".data, "tinyllama".data, true,
    (fun mt => true), (fun mt => []),
    (fun mt prompt mx tp => .ok ["hi".data]), none, none⟩

/-- Witness for `generate_answer_bigger_first` at a configuration with the
bigger model enabled and loadable and a 4001-character prompt. -/
theorem generate_answer_bigger_first_witness :
    (generate_answer cfgC5w (List.replicate 4001 'a') none true).2.head?
      = some (.load .llama3_8b) :=
  (generate_answer_bigger_first cfgC5w (List.replicate 4001 'a') none
    rfl rfl (by rw [List.length_replicate]; omega)).1

def cfgC2a : GenCfg :=
  ⟨"phi3_mini".data, "tinyllama".data, false,
    (fun mt => true), (fun mt => []),
    (fun mt prompt mx tp => .exn true ("exceed context window".data)),
    none, none⟩

def cfgC2b : GenCfg :=
  ⟨"phi3_mini".data, "tinyllama".data, false,
    (fun mt => mt == .phi3_mini), (fun mt => "no path".data),
    (fun mt prompt mx tp => .exn false ("context window".data)),
    none, none⟩

/-- C2 fails as stated, in two ways.  A RuntimeError whose text contains an
overflow indicator is intercepted by the `except RuntimeError` arm (line
340) before the indicator check, so the backend is called exactly once and
never retried (scenario A).  And when the reduced-token retry fails on a
non-TinyLlama-named backend but the fallback model cannot load, no further
call at all is made, not exactly one (scenario B). -/
theorem generate_answer_retry_claim_fails :
    (hasOverflowIndicator ("exceed context window".data) = true
      ∧ generate_answer cfgC2a "p".data none false
          = (.ok ("Error with Phi-3 Mini (Main LLM): exceed context window".data),
             [.load .phi3_mini, .call .phi3_mini 500 ratFifth]))
    ∧ (generate_answer cfgC2b "p".data none false).2
        = [.load .phi3_mini, .call .phi3_mini 500 ratFifth,
           .call .phi3_mini 256 ratFifth, .load .tinyllama]
    ∧ (generate_answer cfgC2b "p".data none false).1
        = .ok (afterReduceErr ("context window".data)) := by
  decide

/-- C2 (amended): when a completion call raises a non-RuntimeError
exception whose text contains a known overflow-indicator substring (a
RuntimeError is reported immediately without retry), `generate_answer`
retries exactly once on the same backend with token budget
`min(256, effective budget)` and the same temperature.  If the retry also
fails and the selected backend's display name is not TinyLlama's, then:
if the configured fallback model loads, exactly one further call is made,
on that fallback model with TinyLlama's default max_tokens (250) and
temperature (0.2); if the fallback cannot load, no further call occurs.
If the display name is already TinyLlama's, no further call occurs.  Each
degraded path that succeeds appends its note to the returned text. -/
theorem generate_answer_overflow_retry (cfg : GenCfg) (prompt : List Char)
    (pref : Option (List Char)) (bigger : Bool) (m : ModelType)
    (name : List Char) (mx : Int) (tp : ℚ) (tr0 : List Event)
    (msg : List Char)
    (hsel : select_model cfg prompt pref bigger = (.selected m name mx tp, tr0))
    (hcall : cfg.call m prompt (effMax cfg mx) (effTemp cfg tp) = .exn false msg)
    (hover : hasOverflowIndicator msg = true) :
    (callEvents (generate_answer cfg prompt pref bigger).2).take 2
      = [(m, effMax cfg mx, effTemp cfg tp),
         (m, min 256 (effMax cfg mx), effTemp cfg tp)]
    ∧ (∀ p ps, cfg.call m prompt (min 256 (effMax cfg mx)) (effTemp cfg tp)
          = .ok (p :: ps) →
        callEvents (generate_answer cfg prompt pref bigger).2
          = [(m, effMax cfg mx, effTemp cfg tp),
             (m, min 256 (effMax cfg mx), effTemp cfg tp)]
        ∧ (generate_answer cfg prompt pref bigger).1
            = .ok (pyStrip p ++ reducedNote name))
    ∧ (cfg.call m prompt (min 256 (effMax cfg mx)) (effTemp cfg tp) = .ok [] →
        callEvents (generate_answer cfg prompt pref bigger).2
          = [(m, effMax cfg mx, effTemp cfg tp),
             (m, min 256 (effMax cfg mx), effTemp cfg tp)])
    ∧ (∀ b2 msg2, cfg.call m prompt (min 256 (effMax cfg mx)) (effTemp cfg tp)
          = .exn b2 msg2 →
        (name = descriptionOf .tinyllama →
          callEvents (generate_answer cfg prompt pref bigger).2
            = [(m, effMax cfg mx, effTemp cfg tp),
               (m, min 256 (effMax cfg mx), effTemp cfg tp)]
          ∧ (generate_answer cfg prompt pref bigger).1
              = .ok (afterReduceErr msg2))
        ∧ (name ≠ descriptionOf .tinyllama →
            (∀ fm ltr, get_fallback_model cfg = (.ok fm, ltr) →
              callEvents (generate_answer cfg prompt pref bigger).2
                = [(m, effMax cfg mx, effTemp cfg tp),
                   (m, min 256 (effMax cfg mx), effTemp cfg tp),
                   (fm, 250, ratFifth)]
              ∧ (∀ q qs, cfg.call fm prompt 250 ratFifth = .ok (q :: qs) →
                  (generate_answer cfg prompt pref bigger).1
                    = .ok (pyStrip q ++ fallbackNote)))
            ∧ (∀ e ltr, get_fallback_model cfg = (.error e, ltr) →
              callEvents (generate_answer cfg prompt pref bigger).2
                = [(m, effMax cfg mx, effTemp cfg tp),
                   (m, min 256 (effMax cfg mx), effTemp cfg tp)]
              ∧ (generate_answer cfg prompt pref bigger).1
                  = .ok (afterReduceErr msg2)))) := by
  have htr0 : callEvents tr0 = [] := by
    have := callEvents_select_model cfg prompt pref bigger
    rw [hsel] at this
    exact this
  have hgen1 : (generate_answer cfg prompt pref bigger).1
      = .ok (execute_call cfg m name mx tp prompt).1 := by
    simp only [generate_answer, hsel]
  have hgen2 : (generate_answer cfg prompt pref bigger).2
      = tr0 ++ (execute_call cfg m name mx tp prompt).2 := by
    simp only [generate_answer, hsel]
  have hcalls : callEvents (generate_answer cfg prompt pref bigger).2
      = callEvents (execute_call cfg m name mx tp prompt).2 := by
    rw [hgen2, callEvents_append, htr0, List.nil_append]
  refine ⟨?_, ?_, ?_, ?_⟩
  · rcases hc2 : cfg.call m prompt (min 256 (effMax cfg mx)) (effTemp cfg tp) with chs | ⟨b2, msg2⟩
    · cases chs with
      | nil =>
        rw [hcalls]
        simp only [execute_call, hcall, hover, hc2]
        rfl
      | cons p ps =>
        rw [hcalls]
        simp only [execute_call, hcall, hover, hc2]
        rfl
    · by_cases hname : name = descriptionOf .tinyllama
      · rw [hcalls]
        simp only [execute_call, hcall, hover, hc2, hname]
        simp [callEvents]
      · rcases hfb : get_fallback_model cfg with ⟨r4, ltr⟩
        have hltr : callEvents ltr = [] := by
          have := callEvents_get_fallback cfg
          rw [hfb] at this
          exact this
        cases r4 with
        | ok fm =>
          rcases hc3 : cfg.call fm prompt (defaultMaxTokens .tinyllama) (defaultTemperature .tinyllama) with chs3 | ⟨b3, msg3⟩
          · cases chs3 with
            | nil =>
              rw [hcalls]
              simp only [execute_call, hcall, hover, hc2, hname, hfb, hc3]
              simp [callEvents, callEvents_append, hltr, hname]
            | cons q qs =>
              rw [hcalls]
              simp only [execute_call, hcall, hover, hc2, hname, hfb, hc3]
              simp [callEvents, callEvents_append, hltr, hname]
          · rw [hcalls]
            simp only [execute_call, hcall, hover, hc2, hname, hfb, hc3]
            simp [callEvents, callEvents_append, hltr, hname]
        | error e =>
          rw [hcalls]
          simp only [execute_call, hcall, hover, hc2, hname, hfb]
          simp [callEvents, callEvents_append, hltr, hname]
  · intro p ps hc2
    constructor
    · rw [hcalls]
      simp only [execute_call, hcall, hover, hc2]
      rfl
    · rw [hgen1]
      simp only [execute_call, hcall, hover, hc2]
      simp
  · intro hc2
    rw [hcalls]
    simp only [execute_call, hcall, hover, hc2]
    rfl
  · intro b2 msg2 hc2
    constructor
    · intro hname
      constructor
      · rw [hcalls]
        simp only [execute_call, hcall, hover, hc2, hname]
        simp [callEvents]
      · rw [hgen1]
        simp only [execute_call, hcall, hover, hc2, hname]
        simp
    · intro hname
      constructor
      · intro fm ltr hfb
        have hltr : callEvents ltr = [] := by
          have := callEvents_get_fallback cfg
          rw [hfb] at this
          exact this
        constructor
        · rw [hcalls]
          simp only [execute_call, hcall, hover, hc2, hname, hfb]
          rcases hc3 : cfg.call fm prompt (defaultMaxTokens .tinyllama) (defaultTemperature .tinyllama) with chs3 | ⟨b3, msg3⟩
          · cases chs3 with
            | nil =>
              simp [hc3, callEvents, callEvents_append, hltr, hname,
                defaultMaxTokens, defaultTemperature]
            | cons q qs =>
              simp [hc3, callEvents, callEvents_append, hltr, hname,
                defaultMaxTokens, defaultTemperature]
          · simp [hc3, callEvents, callEvents_append, hltr, hname,
              defaultMaxTokens, defaultTemperature]
        · intro q qs hc3
          rw [hgen1]
          simp only [execute_call, hcall, hover, hc2, hname, hfb]
          simp [hc3, hname, defaultMaxTokens, defaultTemperature]
      · intro e ltr hfb
        have hltr : callEvents ltr = [] := by
          have := callEvents_get_fallback cfg
          rw [hfb] at this
          exact this
        constructor
        · rw [hcalls]
          simp only [execute_call, hcall, hover, hc2, hname, hfb]
          simp [callEvents, callEvents_append, hltr, hname]
        · rw [hgen1]
          simp only [execute_call, hcall, hover, hc2, hname, hfb]
          simp [hname]

def cfgC2w : GenCfg :=
  ⟨"phi3_mini".data, "tinyllama".data, false,
    (fun mt => true), (fun mt => []),
    (fun mt prompt mx tp =>
      if mt == .tinyllama then .ok ["done".data]
      else .exn false ("context window".data)),
    none, none⟩

/-- Witness for `generate_answer_overflow_retry`: a configuration whose
primary model always overflows and whose fallback answers. -/
theorem generate_answer_overflow_retry_witness :
    (callEvents (generate_answer cfgC2w "p".data none false).2).take 2
      = [(.phi3_mini, effMax cfgC2w 500, effTemp cfgC2w ratFifth),
         (.phi3_mini, min 256 (effMax cfgC2w 500), effTemp cfgC2w ratFifth)] :=
  (generate_answer_overflow_retry cfgC2w "p".data none false .phi3_mini
    (descriptionOf .phi3_mini) 500 ratFifth [.load .phi3_mini]
    ("context window".data) (by decide) (by decide) (by decide)).1

/-! The answer pipeline (src/rag.py lines 112-147).  The embedding provider
and the hybrid search are collaborators passed as functions (the embedding
vector type is a parameter); the generation backends come from `GenCfg`, so
the trace records every backend load and completion call of the run. -/

def noRelevantInfo : List Char :=
  "I couldn't find any relevant information in the podcast transcripts.".data

/-- `ask_podcast_question` of src/rag.py lines 112-147: embed the question,
run the hybrid search (through `search_transcripts`, a direct delegation),
return the fixed text when there are no hits, otherwise build the context
and prompt and generate. -/
def ask_podcast_question {Emb : Type} (embed : List Char → Emb)
    (search : List Char → Emb → Nat → Option (List Char) →
      Option (List (List Char)) → List Hit)
    (cfg : GenCfg) (budget : Nat) (user_query : List Char)
    (podcast_name : Option (List Char)) (topics : Option (List (List Char)))
    (top_k : Nat) : Except (List Char) (List Char) × List Event :=
  let query_emb := embed user_query
  let hits := search user_query query_emb top_k podcast_name topics
  if hits.isEmpty then (.ok noRelevantInfo, [])
  else
    generate_answer cfg
      (build_podcast_prompt user_query (build_context budget hits)) none false

/-- C4: whenever the hybrid search returns zero hits, `ask_podcast_question`
returns exactly the fixed no-relevant-information string and the generation
machinery is never touched: the backend trace is empty — no model is loaded
and `generate_answer` is never invoked. -/
theorem ask_podcast_question_no_hits {Emb : Type} (embed : List Char → Emb)
    (search : List Char → Emb → Nat → Option (List Char) →
      Option (List (List Char)) → List Hit)
    (cfg : GenCfg) (budget : Nat) (user_query : List Char)
    (podcast_name : Option (List Char)) (topics : Option (List (List Char)))
    (top_k : Nat)
    (hempty : search user_query (embed user_query) top_k podcast_name topics
      = []) :
    ask_podcast_question embed search cfg budget user_query podcast_name
      topics top_k = (.ok noRelevantInfo, []) := by
  simp [ask_podcast_question, hempty]

def cfgTrivial : GenCfg :=
  ⟨"phi3_mini".data, "tinyllama".data, false,
    (fun mt => true), (fun mt => []),
    (fun mt prompt mx tp => .ok ["x".data]), none, none⟩

/-- Witness for `ask_podcast_question_no_hits` with a store that matches
nothing. -/
theorem ask_podcast_question_no_hits_witness :
    ask_podcast_question (fun q => ()) (fun a b c d e => ([] : List Hit))
      cfgTrivial 800 ("q".data) none none 5 = (.ok noRelevantInfo, []) :=
  ask_podcast_question_no_hits (fun q => ()) (fun a b c d e => ([] : List Hit))
    cfgTrivial 800 ("q".data) none none 5 rfl

end RagPodcasts
